import Mathlib

/-!
Shallow embedding of the list-query engine of the `slims-api` repository
(`src/resources/mod.rs` and its use in `src/resources/loans.rs`).

Strings are modelled through their character lists so that every operation
is structurally recursive and kernel-reducible.  Rust's `str::split(',')`,
`str::trim`, `str::to_lowercase`, `str::strip_prefix` / `strip_suffix` are
embedded as `splitCh`, `trimChars`, char-wise `Char.toLower`, and explicit
list operations on `String.data`.  `u32` arithmetic wraps modulo `2^32`,
`i64` values are `Int` with the parse range check made explicit.
-/

namespace SlimsApi

instance {α β : Type _} [DecidableEq α] [DecidableEq β] :
    DecidableEq (Except α β) := fun a b =>
  match a, b with
  | .ok x, .ok y =>
    if h : x = y then .isTrue (by rw [h]) else .isFalse (by simp [h])
  | .error x, .error y =>
    if h : x = y then .isTrue (by rw [h]) else .isFalse (by simp [h])
  | .ok _, .error _ => .isFalse (by simp)
  | .error _, .ok _ => .isFalse (by simp)

/-- ASCII/basic whitespace, the fragment of `char::is_whitespace` relevant
to query strings. -/
def isWs (c : Char) : Bool :=
  c = ' ' || c = '\t' || c = '\n' || c = '\r'

/-- Trim whitespace from both ends of a character list (Rust `str::trim`). -/
def trimChars (cs : List Char) : List Char :=
  ((cs.dropWhile isWs).reverse.dropWhile isWs).reverse

/-- Split a character list at every occurrence of `sep`
(Rust `str::split(sep)`): `"a,,b"` gives `["a", "", "b"]` and `""` gives `[""]`. -/
def splitCh (sep : Char) : List Char → List (List Char)
  | [] => [[]]
  | c :: rest =>
    if c = sep then [] :: splitCh sep rest
    else
      match splitCh sep rest with
      | [] => [[c]]
      | g :: gs => (c :: g) :: gs

/-- The error enum of `src/error.rs`, restricted to the variants the query
engine can produce (`Database`/`Jwt` carry foreign error types and are not
reachable from the compiler functions). -/
inductive AppError where
  | Unauthorized (msg : String)
  | Forbidden (msg : String)
  | NotFound
  | BadRequest (msg : String)
  | Internal (msg : String)
deriving DecidableEq, Repr

/-- Embedding of `FilterOperator` from `src/resources/mod.rs`. -/
inductive FilterOperator where
  | Equals
  | Like
deriving DecidableEq, Repr

/-- Embedding of `FilterValueType` from `src/resources/mod.rs`. -/
inductive FilterValueType where
  | Text
  | Integer
  | Boolean
deriving DecidableEq, Repr

/-- Embedding of `FilterValue` from `src/resources/mod.rs`: the typed bind parameter. -/
inductive FilterValue where
  | Text (val : String)
  | Integer (val : Int)
  | Boolean (val : Bool)
deriving DecidableEq, Repr

/-- Embedding of `FilterField` from `src/resources/mod.rs`: one allow-list entry. -/
structure FilterField where
  name : String
  column : String
  operator : FilterOperator
  value_type : FilterValueType
deriving DecidableEq, Repr

/-- Embedding of `FilterClause` from `src/resources/mod.rs`. -/
structure FilterClause where
  statement : String
  value : FilterValue
deriving DecidableEq, Repr

/-- Rust `str::parse::<i64>()`: an optional single `+`/`-` sign, then one or
more ASCII digits, with the `i64` range check; anything else fails. -/
def parseI64 (s : String) : Option Int :=
  let cs := s.data
  let signDigits : Int × List Char :=
    match cs with
    | '+' :: rest => (1, rest)
    | '-' :: rest => (-1, rest)
    | _ => (1, cs)
  let sign := signDigits.1
  let digits := signDigits.2
  if digits.isEmpty then none
  else if digits.all Char.isDigit then
    let mag : Nat := digits.foldl (fun acc c => acc * 10 + (c.toNat - 48)) 0
    let v : Int := sign * mag
    if -(2 ^ 63) ≤ v ∧ v < 2 ^ 63 then some v else none
  else none

/-- Embedding of `FilterField::parse_value` (`src/resources/mod.rs` lines 305-330). -/
def FilterField.parse_value (f : FilterField) (raw_value : String) :
    Except AppError FilterValue :=
  match f.value_type with
  | .Text => .ok (.Text raw_value)
  | .Integer =>
    match parseI64 raw_value with
    | some n => .ok (.Integer n)
    | none =>
      .error (.BadRequest ("filter `" ++ f.name ++ "` must be an integer"))
  | .Boolean =>
    if raw_value = "true" ∨ raw_value = "1" then .ok (.Boolean true)
    else if raw_value = "false" ∨ raw_value = "0" then .ok (.Boolean false)
    else .error (.BadRequest ("filter `" ++ f.name ++ "` must be boolean"))

/-- Embedding of `FilterField::to_clause` (`src/resources/mod.rs` lines 288-303). -/
def FilterField.to_clause (f : FilterField) (raw_value : String) :
    Except AppError (String × FilterValue) :=
  match f.operator with
  | .Equals =>
    match f.parse_value raw_value with
    | .ok value => .ok (f.column ++ " = ?", value)
    | .error e => .error e
  | .Like =>
    .ok (f.column ++ " LIKE ?", .Text ("%" ++ raw_value ++ "%"))

/-- Embedding of `where_clause` (`src/resources/mod.rs` lines 370-384). -/
def where_clause (filters : List FilterClause) : String :=
  if filters.isEmpty then ""
  else
    "WHERE " ++ String.intercalate " AND " (filters.map (·.statement))

/-- Embedding of `ListParams::filter_clauses` (`src/resources/mod.rs` lines 167-195).
The `filters` map is modelled as an association list whose order stands for
the (unspecified) `HashMap` iteration order.  The `values.first().expect(..)`
panic point is modelled by the `none` result; every non-panicking outcome is
`some` of the Rust function's `Result`. -/
def filter_clauses (filters : List (String × List String))
    (allowed : List FilterField) :
    Option (Except AppError (List FilterClause)) :=
  match filters with
  | [] => some (.ok [])
  | (name, values) :: rest =>
    match allowed.find? (fun item => item.name = name) with
    | none =>
      some (.error (.BadRequest ("filter `" ++ name ++ "` is not supported")))
    | some def_ =>
      if values.length > 1 then
        some (.error (.BadRequest
          ("multiple filter values for `" ++ name ++ "` are not supported")))
      else
        match values.head? with
        | none => none
        | some raw_value =>
          match def_.to_clause raw_value with
          | .error e => some (.error e)
          | .ok (statement, value) =>
            match filter_clauses rest allowed with
            | none => none
            | some (.error e) => some (.error e)
            | some (.ok clauses) =>
              some (.ok (⟨statement, value⟩ :: clauses))

/-! Pagination (`src/resources/mod.rs` lines 20-47). -/

def DEFAULT_PAGE : Nat := 1
def DEFAULT_PER_PAGE : Nat := 20
def MAX_PER_PAGE : Nat := 100

/-- Embedding of `Pagination` from `src/resources/mod.rs`: the two optional `u32` query
parameters (values below `2^32`). -/
structure Pagination where
  page_number : Option Nat
  page_size : Option Nat
deriving DecidableEq, Repr

/-- Embedding of `Pagination::resolved` (`src/resources/mod.rs` lines 33-40):
`unwrap_or(DEFAULT_PAGE).max(1)` and `unwrap_or(DEFAULT_PER_PAGE).clamp(1, MAX_PER_PAGE)`. -/
def Pagination.resolved (p : Pagination) : Nat × Nat :=
  let page := max (p.page_number.getD DEFAULT_PAGE) 1
  let per_page := min (max (p.page_size.getD DEFAULT_PER_PAGE) 1) MAX_PER_PAGE
  (page, per_page)

/-- Embedding of `Pagination::limit_offset` (`src/resources/mod.rs` lines 42-47).
`(page - 1) * per_page` is computed in `u32`, hence taken modulo `2^32`
before the `as i64` widening. -/
def Pagination.limit_offset (p : Pagination) : Int × Int × Nat × Nat :=
  let r := p.resolved
  let page := r.1
  let per_page := r.2
  let offset : Int := (((page - 1) * per_page) % 2 ^ 32 : Nat)
  ((per_page : Int), offset, page, per_page)

/-! Sorting (`src/resources/mod.rs` lines 142-165, 198-220, 234-250). -/

/-- Embedding of `SortOrder` from `src/resources/mod.rs`. -/
structure SortOrder where
  field : String
  ascending : Bool
deriving DecidableEq, Repr

/-- Embedding of `SortField` from `src/resources/mod.rs`: one sort allow-list entry. -/
structure SortField where
  name : String
  column : String
deriving DecidableEq, Repr

/-- The loop body of `ListParams::sort_clause`: the fragments pushed for each
sort order in turn, stopping with the error at the first field missing from
`allowed`. -/
def sortFragments (sorts : List SortOrder) (allowed : List SortField) :
    Except AppError (List String) :=
  match sorts with
  | [] => .ok []
  | order :: rest =>
    match allowed.find? (fun def_ => def_.name = order.field) with
    | some def_ =>
      let direction := if order.ascending then "ASC" else "DESC"
      match sortFragments rest allowed with
      | .ok clauses => .ok ((def_.column ++ " " ++ direction) :: clauses)
      | .error e => .error e
    | none =>
      .error (.BadRequest
        ("sorting by `" ++ order.field ++ "` is not supported"))

/-- Embedding of `ListParams::sort_clause` (`src/resources/mod.rs` lines 142-165), with
the parsed `sorts` sequence passed explicitly. -/
def sort_clause (sorts : List SortOrder) (allowed : List SortField)
    (default : String) : Except AppError String :=
  if sorts.isEmpty then .ok default
  else
    match sortFragments sorts allowed with
    | .ok clauses => .ok (String.intercalate ", " clauses)
    | .error e => .error e

/-- Embedding of `parse_sort_string` (`src/resources/mod.rs` lines 198-220): comma-split,
trim, drop empties, one leading `-` means descending, one leading `+` or no
sign means ascending. -/
def parse_sort_string (raw : String) : List SortOrder :=
  (splitCh ',' raw.data).filterMap (fun part =>
    match trimChars part with
    | [] => none
    | '-' :: field => some ⟨⟨field⟩, false⟩
    | '+' :: field => some ⟨⟨field⟩, true⟩
    | trimmed => some ⟨⟨trimmed⟩, true⟩)

/-! Include parsing (`src/resources/mod.rs` lines 222-232). -/

/-- One segment of the `include` list: trimmed, dropped when empty,
otherwise lower-cased. -/
def canonSeg (part : List Char) : Option String :=
  let trimmed := trimChars part
  if trimmed.isEmpty then none else some ⟨trimmed.map Char.toLower⟩

/-- The segment-collection stage of `parse_include`: the comma-separated
parts filtered through `canonSeg` and collected into a set. -/
def parseIncludeParts (parts : List (List Char)) : Finset String :=
  (parts.filterMap canonSeg).toFinset

/-- Embedding of `parse_include` (`src/resources/mod.rs` lines 222-232), the body of
`ListParams::includes`. -/
def parse_include (raw : Option String) : Finset String :=
  match raw with
  | none => ∅
  | some s => parseIncludeParts (splitCh ',' s.data)

/-! Query binding (`src/resources/mod.rs` lines 339-404).  A sqlx query
object is modelled by the ordered list of typed values bound to it so far;
`.bind` appends one value. -/

/-- A `QueryAs` (row-returning) sqlx statement: its bound parameters in
bind order. -/
structure QueryAs where
  binds : List FilterValue
deriving DecidableEq, Repr

/-- A `QueryScalar` (scalar `COUNT(*)`) sqlx statement: its bound parameters
in bind order. -/
structure QueryScalar where
  binds : List FilterValue
deriving DecidableEq, Repr

/-- sqlx `QueryAs::bind`: appends one typed parameter. -/
def QueryAs.bind (q : QueryAs) (v : FilterValue) : QueryAs :=
  ⟨q.binds ++ [v]⟩

/-- sqlx `QueryScalar::bind`: appends one typed parameter. -/
def QueryScalar.bind (q : QueryScalar) (v : FilterValue) : QueryScalar :=
  ⟨q.binds ++ [v]⟩

/-- Embedding of `FilterValue::bind_query` (`src/resources/mod.rs` lines 340-349): each
variant binds in its native type. -/
def FilterValue.bind_query (v : FilterValue) (query : QueryAs) : QueryAs :=
  match v with
  | .Text val => query.bind (.Text val)
  | .Integer val => query.bind (.Integer val)
  | .Boolean val => query.bind (.Boolean val)

/-- Embedding of `FilterValue::bind_scalar` (`src/resources/mod.rs` lines 351-360). -/
def FilterValue.bind_scalar (v : FilterValue) (query : QueryScalar) :
    QueryScalar :=
  match v with
  | .Text val => query.bind (.Text val)
  | .Integer val => query.bind (.Integer val)
  | .Boolean val => query.bind (.Boolean val)

/-- Embedding of `bind_filters_to_query` (`src/resources/mod.rs` lines 386-394). -/
def bind_filters_to_query (query : QueryAs) (filters : List FilterClause) :
    QueryAs :=
  filters.foldl (fun q clause => clause.value.bind_query q) query

/-- Embedding of `bind_filters_to_scalar` (`src/resources/mod.rs` lines 396-404). -/
def bind_filters_to_scalar (query : QueryScalar)
    (filters : List FilterClause) : QueryScalar :=
  filters.foldl (fun q clause => clause.value.bind_scalar q) query

/-- The bind sequence of the `list_loans` data query
(`src/resources/loans.rs` lines 132-134): the filters bound in order, then
`.bind(limit).bind(offset)`. -/
def list_loans_data_binds (filters : List FilterClause)
    (limit offset : Int) : List FilterValue :=
  (((bind_filters_to_query ⟨[]⟩ filters).bind (.Integer limit)).bind
    (.Integer offset)).binds

/-- The bind sequence of the `list_loans` count query
(`src/resources/loans.rs` line 124). -/
def list_loans_count_binds (filters : List FilterClause) :
    List FilterValue :=
  (bind_filters_to_scalar ⟨[]⟩ filters).binds

/-! `ListParams` deserialization (`src/resources/mod.rs` lines 58-127):
the construction of the `filters` map from the flattened `extras`
key/value pairs. -/

/-- Comma-split a raw value, trim each part and drop empty parts
(the `filter[...]` value handling, `src/resources/mod.rs` lines 99-105). -/
def parseCsvValues (value : String) : List String :=
  (splitCh ',' value.data).filterMap (fun part =>
    let trimmed := trimChars part
    if trimmed.isEmpty then none else some ⟨trimmed⟩)

/-- Embedding of `key.strip_prefix("filter[")` then `strip_suffix(']')`
(`src/resources/mod.rs` lines 97-98): the filter name when the key has the
`filter[<name>]` shape, `none` otherwise. -/
def filterKeyName (key : String) : Option String :=
  if ("filter[".data).isPrefixOf key.data then
    let namePart := key.data.drop 7
    if namePart.getLast? = some ']' then some ⟨namePart.dropLast⟩ else none
  else none

/-- The filters-map construction inside `ListParams::deserialize`
(`src/resources/mod.rs` lines 97-110): a `filter[<name>]` key is inserted
only when its comma-split, trimmed value list is non-empty.  `extras` keys
are unique (they come from a `HashMap<String, String>`), so successive
inserts never collide and the map is modelled as the association list of
inserted entries. -/
def buildFilters : List (String × String) → List (String × List String)
  | [] => []
  | (key, value) :: rest =>
    match filterKeyName key with
    | some name =>
      let values := parseCsvValues value
      if values.isEmpty then buildFilters rest
      else (name, values) :: buildFilters rest
    | none => buildFilters rest

/-! The loans resource (`src/resources/loans.rs`). -/

/-- Embedding of `LOAN_FILTERS` (`src/resources/loans.rs` lines 74-93). -/
def LOAN_FILTERS : List FilterField :=
  [⟨"item_code", "loan.item_code", .Equals, .Text⟩,
   ⟨"member_id", "loan.member_id", .Equals, .Text⟩,
   ⟨"is_return", "loan.is_return", .Equals, .Boolean⟩]

/-- Embedding of `SortField` allow-list `LOAN_SORTS` (`src/resources/loans.rs` lines 67-72). -/
def LOAN_SORTS : List SortField :=
  [⟨"loan_date", "loan.loan_date"⟩,
   ⟨"due_date", "loan.due_date"⟩,
   ⟨"return_date", "loan.return_date"⟩,
   ⟨"loan_id", "loan.loan_id"⟩]

/-- Embedding of `Loan` row (`src/resources/loans.rs` lines 26-36); `NaiveDate` values are
modelled as day numbers. -/
structure Loan where
  loan_id : Int
  item_code : Option String
  member_id : Option String
  loan_date : Int
  due_date : Int
  actual : Option Int
  return_date : Option Int
  is_return : Int
deriving DecidableEq, Repr

/-- Embedding of `LoanMember` (`src/resources/loans.rs` lines 45-49). -/
structure LoanMember where
  member_id : String
  member_name : String
deriving DecidableEq, Repr

/-- Embedding of `LoanItem` (`src/resources/loans.rs` lines 51-55). -/
structure LoanItem where
  item_id : Int
  item_code : Option String
deriving DecidableEq, Repr

/-- Embedding of `LoanResponse` (`src/resources/loans.rs` lines 57-65). -/
structure LoanResponse where
  loan : Loan
  member : Option LoanMember
  item : Option LoanItem
deriving DecidableEq, Repr

/-- One single-row lookup issued by the `list_loans` enrichment loop. -/
inductive QueryLog where
  | memberLookup (key : String)
  | itemLookup (key : String)
deriving DecidableEq, Repr

/-- Embedding of `HashMap::get` on the association-list model of a per-request cache. -/
def lookupAssoc {α : Type} (cache : List (String × α)) (key : String) :
    Option α :=
  (cache.find? (fun e => e.1 = key)).map (·.2)

/-- The member half of one `list_loans` loop iteration
(`src/resources/loans.rs` lines 143-159): the attached member, the updated
`member_cache`, and the lookups issued.  `mdb` is the database contents of
the `member` table as a key-to-row map; a found row is inserted into the
cache, a missing row leaves the cache untouched. -/
def memberStep (mdb : String → Option LoanMember) (includeMember : Bool)
    (member_id : Option String) (member_cache : List (String × LoanMember)) :
    Option LoanMember × List (String × LoanMember) × List QueryLog :=
  if includeMember then
    match member_id with
    | none => (none, member_cache, [])
    | some key =>
      match lookupAssoc member_cache key with
      | some existing => (some existing, member_cache, [])
      | none =>
        match mdb key with
        | some row => (some row, (key, row) :: member_cache, [.memberLookup key])
        | none => (none, member_cache, [.memberLookup key])
  else (none, member_cache, [])

/-- The item half of one `list_loans` loop iteration
(`src/resources/loans.rs` lines 161-177). -/
def itemStep (idb : String → Option LoanItem) (includeItem : Bool)
    (item_code : Option String) (item_cache : List (String × LoanItem)) :
    Option LoanItem × List (String × LoanItem) × List QueryLog :=
  if includeItem then
    match item_code with
    | none => (none, item_cache, [])
    | some key =>
      match lookupAssoc item_cache key with
      | some existing => (some existing, item_cache, [])
      | none =>
        match idb key with
        | some row => (some row, (key, row) :: item_cache, [.itemLookup key])
        | none => (none, item_cache, [.itemLookup key])
  else (none, item_cache, [])

/-- The enrichment loop of `list_loans` (`src/resources/loans.rs` lines
138-186): both caches start empty at line 138-139 and thread through the
batch; the result is the enriched responses, the final caches, and the
lookups issued in order. -/
def enrichLoansLoop (mdb : String → Option LoanMember)
    (idb : String → Option LoanItem) (includeMember includeItem : Bool) :
    List Loan → List (String × LoanMember) → List (String × LoanItem) →
    List LoanResponse × List (String × LoanMember) × List (String × LoanItem)
      × List QueryLog
  | [], member_cache, item_cache => ([], member_cache, item_cache, [])
  | loan :: rest, member_cache, item_cache =>
    let ms := memberStep mdb includeMember loan.member_id member_cache
    let its := itemStep idb includeItem loan.item_code item_cache
    let r := enrichLoansLoop mdb idb includeMember includeItem rest ms.2.1 its.2.1
    (⟨loan, ms.1, its.1⟩ :: r.1, r.2.1, r.2.2.1, ms.2.2 ++ its.2.2 ++ r.2.2.2)

/-! Helper lemmas. -/

theorem bind_query_binds (v : FilterValue) (q : QueryAs) :
    (v.bind_query q).binds = q.binds ++ [v] := by
  cases v <;> rfl

theorem bind_scalar_binds (v : FilterValue) (q : QueryScalar) :
    (v.bind_scalar q).binds = q.binds ++ [v] := by
  cases v <;> rfl

theorem bind_filters_to_query_binds (filters : List FilterClause)
    (q : QueryAs) :
    (bind_filters_to_query q filters).binds
      = q.binds ++ filters.map (·.value) := by
  induction filters generalizing q with
  | nil => simp [bind_filters_to_query]
  | cons c rest ih =>
    simp only [bind_filters_to_query, List.foldl_cons] at *
    rw [ih, bind_query_binds]
    simp

theorem bind_filters_to_scalar_binds (filters : List FilterClause)
    (q : QueryScalar) :
    (bind_filters_to_scalar q filters).binds
      = q.binds ++ filters.map (·.value) := by
  induction filters generalizing q with
  | nil => simp [bind_filters_to_scalar]
  | cons c rest ih =>
    simp only [bind_filters_to_scalar, List.foldl_cons] at *
    rw [ih, bind_scalar_binds]
    simp

theorem to_clause_statement (f : FilterField) (v s : String)
    (val : FilterValue) (h : f.to_clause v = .ok (s, val)) :
    s = f.column
      ++ match f.operator with | .Equals => " = ?" | .Like => " LIKE ?" := by
  cases hop : f.operator with
  | Equals =>
    simp only [FilterField.to_clause, hop] at h
    cases hp : f.parse_value v <;> rw [hp] at h <;> simp at h
    exact h.1.symm
  | Like =>
    simp only [FilterField.to_clause, hop] at h
    simp at h
    exact h.1.symm

theorem filter_clauses_ok_mem (filters : List (String × List String))
    (allowed : List FilterField) (clauses : List FilterClause)
    (h : filter_clauses filters allowed = some (.ok clauses)) :
    ∀ c ∈ clauses, ∃ f ∈ allowed, ∃ v,
      f.to_clause v = .ok (c.statement, c.value) := by
  induction filters generalizing clauses with
  | nil =>
    simp only [filter_clauses, Option.some_inj] at h
    cases h
    simp
  | cons p rest ih =>
    obtain ⟨name, values⟩ := p
    simp only [filter_clauses] at h
    split at h
    · simp at h
    · rename_i def_ hfind
      split at h
      · simp at h
      · split at h
        · simp at h
        · rename_i raw hhead
          split at h
          · simp at h
          · rename_i st val hclause
            split at h
            · simp at h
            · simp at h
            · rename_i cs hrec
              simp only [Option.some_inj, Except.ok.injEq] at h
              subst h
              intro c hc
              rcases List.mem_cons.mp hc with hc | hc
              · subst hc
                exact ⟨def_, List.mem_of_find?_eq_some hfind, raw, hclause⟩
              · exact ih cs hrec c hc

theorem filter_clauses_ne_ok_of_unsupported
    (filters : List (String × List String)) (allowed : List FilterField)
    (h : ∃ p ∈ filters, ∀ f ∈ allowed, f.name ≠ p.1) :
    ∀ clauses, filter_clauses filters allowed ≠ some (.ok clauses) := by
  induction filters with
  | nil => simp at h
  | cons p rest ih =>
    obtain ⟨name, values⟩ := p
    intro clauses hok
    simp only [filter_clauses] at hok
    split at hok
    · simp at hok
    · rename_i def_ hfind
      have hmem := List.mem_of_find?_eq_some hfind
      have hpn : def_.name = name := by
        have := List.find?_some hfind
        simpa using this
      rcases h with ⟨q, hq, hqn⟩
      rcases List.mem_cons.mp hq with rfl | hq
      · exact hqn def_ hmem hpn
      · split at hok
        · simp at hok
        · split at hok
          · simp at hok
          · rename_i raw hhead
            split at hok
            · simp at hok
            · rename_i st val hclause
              split at hok
              · simp at hok
              · simp at hok
              · rename_i cs hrec
                exact ih ⟨q, hq, hqn⟩ cs hrec

theorem filter_clauses_head_unsupported (name : String)
    (values : List String) (rest : List (String × List String))
    (allowed : List FilterField) (h : ∀ f ∈ allowed, f.name ≠ name) :
    filter_clauses ((name, values) :: rest) allowed
      = some (.error (.BadRequest
          ("filter `" ++ name ++ "` is not supported"))) := by
  have hfind : allowed.find? (fun item => item.name = name) = none := by
    rw [List.find?_eq_none]
    intro f hf
    simpa using h f hf
  simp [filter_clauses, hfind]

theorem filter_clauses_isSome (filters : List (String × List String))
    (allowed : List FilterField) (h : ∀ e ∈ filters, e.2 ≠ []) :
    (filter_clauses filters allowed).isSome = true := by
  induction filters with
  | nil => simp [filter_clauses]
  | cons p rest ih =>
    obtain ⟨name, values⟩ := p
    have hval : values ≠ [] := h (name, values) (List.mem_cons_self _ _)
    have hrest : ∀ e ∈ rest, e.2 ≠ [] :=
      fun e he => h e (List.mem_cons_of_mem _ he)
    simp only [filter_clauses]
    split
    · simp
    · rename_i def_ hfind
      split
      · simp
      · split
        · rename_i hhead
          cases values with
          | nil => exact absurd rfl hval
          | cons a as => simp at hhead
        · rename_i raw hhead
          split
          · simp
          · rename_i st val hclause
            split
            · rename_i hrec
              have := ih hrest
              rw [hrec] at this
              simp at this
            · simp
            · simp

theorem buildFilters_values_ne_nil (extras : List (String × String)) :
    ∀ e ∈ buildFilters extras, e.2 ≠ [] := by
  induction extras with
  | nil => simp [buildFilters]
  | cons kv rest ih =>
    obtain ⟨key, value⟩ := kv
    simp only [buildFilters]
    split
    · rename_i name hname
      split
      · exact ih
      · rename_i hemp
        intro e he
        rcases List.mem_cons.mp he with rfl | he
        · simpa [List.isEmpty_iff] using hemp
        · exact ih e he
    · exact ih

theorem lookupAssoc_cons {α : Type} (key : String) (row : α)
    (cache : List (String × α)) (k : String) :
    lookupAssoc ((key, row) :: cache) k
      = if key = k then some row else lookupAssoc cache k := by
  by_cases h : key = k <;> simp [lookupAssoc, List.find?_cons, h]

theorem memberStep_result (mdb : String → Option LoanMember) (im : Bool)
    (mid : Option String) (mc : List (String × LoanMember))
    (hc : ∀ k v, lookupAssoc mc k = some v → mdb k = some v) :
    (memberStep mdb im mid mc).1 = if im then mid.bind mdb else none := by
  cases im
  · simp [memberStep]
  · cases mid with
    | none => simp [memberStep]
    | some key =>
      cases hl : lookupAssoc mc key
      · cases hdb : mdb key <;> simp [memberStep, hl, hdb]
      · rename_i v
        simp [memberStep, hl, hc key v hl]

theorem memberStep_cache_consistent (mdb : String → Option LoanMember)
    (im : Bool) (mid : Option String) (mc : List (String × LoanMember))
    (hc : ∀ k v, lookupAssoc mc k = some v → mdb k = some v) :
    ∀ k v, lookupAssoc (memberStep mdb im mid mc).2.1 k = some v →
      mdb k = some v := by
  cases im
  · simpa [memberStep] using hc
  · cases mid with
    | none => simpa [memberStep] using hc
    | some key =>
      cases hl : lookupAssoc mc key
      · cases hdb : mdb key
        · simpa [memberStep, hl, hdb] using hc
        · rename_i row
          intro k v hv
          simp only [memberStep, hl, hdb, if_true] at hv
          rw [lookupAssoc_cons] at hv
          by_cases hk : key = k
          · subst hk
            rw [if_pos rfl] at hv
            cases hv
            exact hdb
          · rw [if_neg hk] at hv
            exact hc k v hv
      · simpa [memberStep, hl] using hc

theorem itemStep_result (idb : String → Option LoanItem) (ii : Bool)
    (code : Option String) (ic : List (String × LoanItem))
    (hc : ∀ k v, lookupAssoc ic k = some v → idb k = some v) :
    (itemStep idb ii code ic).1 = if ii then code.bind idb else none := by
  cases ii
  · simp [itemStep]
  · cases code with
    | none => simp [itemStep]
    | some key =>
      cases hl : lookupAssoc ic key
      · cases hdb : idb key <;> simp [itemStep, hl, hdb]
      · rename_i v
        simp [itemStep, hl, hc key v hl]

theorem itemStep_cache_consistent (idb : String → Option LoanItem)
    (ii : Bool) (code : Option String) (ic : List (String × LoanItem))
    (hc : ∀ k v, lookupAssoc ic k = some v → idb k = some v) :
    ∀ k v, lookupAssoc (itemStep idb ii code ic).2.1 k = some v →
      idb k = some v := by
  cases ii
  · simpa [itemStep] using hc
  · cases code with
    | none => simpa [itemStep] using hc
    | some key =>
      cases hl : lookupAssoc ic key
      · cases hdb : idb key
        · simpa [itemStep, hl, hdb] using hc
        · rename_i row
          intro k v hv
          simp only [itemStep, hl, hdb, if_true] at hv
          rw [lookupAssoc_cons] at hv
          by_cases hk : key = k
          · subst hk
            rw [if_pos rfl] at hv
            cases hv
            exact hdb
          · rw [if_neg hk] at hv
            exact hc k v hv
      · simpa [itemStep, hl] using hc

theorem itemStep_no_member (idb : String → Option LoanItem) (ii : Bool)
    (code : Option String) (ic : List (String × LoanItem)) (k : String) :
    (itemStep idb ii code ic).2.2.count (QueryLog.memberLookup k) = 0 := by
  cases ii
  · simp [itemStep]
  · cases code with
    | none => simp [itemStep]
    | some key =>
      cases hl : lookupAssoc ic key
      · cases hdb : idb key <;> simp [itemStep, hl, hdb, List.count_cons]
      · simp [itemStep, hl]

theorem memberStep_count_found (mdb : String → Option LoanMember)
    (im : Bool) (mid : Option String) (mc : List (String × LoanMember))
    (k : String) (r : LoanMember) (hdb : mdb k = some r) :
    ((memberStep mdb im mid mc).2.2.count (QueryLog.memberLookup k)
      = if im ∧ mid = some k ∧ lookupAssoc mc k = none then 1 else 0) ∧
    (lookupAssoc (memberStep mdb im mid mc).2.1 k
      = if im ∧ mid = some k ∧ lookupAssoc mc k = none then some r
        else lookupAssoc mc k) := by
  cases im
  · simp [memberStep]
  · cases mid with
    | none => simp [memberStep]
    | some key =>
      by_cases hk : key = k
      · subst hk
        cases hl : lookupAssoc mc key
        · simp [memberStep, hl, hdb, List.count_cons, lookupAssoc_cons]
        · simp [memberStep, hl]
      · cases hl : lookupAssoc mc key
        · cases hdbk : mdb key <;>
            simp [memberStep, hl, hdbk, List.count_cons, lookupAssoc_cons, hk]
        · simp [memberStep, hl, hk]

theorem memberStep_count_notfound (mdb : String → Option LoanMember)
    (im : Bool) (mid : Option String) (mc : List (String × LoanMember))
    (k : String) (hdb : mdb k = none) (hl : lookupAssoc mc k = none) :
    ((memberStep mdb im mid mc).2.2.count (QueryLog.memberLookup k)
      = if im ∧ mid = some k then 1 else 0) ∧
    lookupAssoc (memberStep mdb im mid mc).2.1 k = none := by
  cases im
  · simp [memberStep, hl]
  · cases mid with
    | none => simp [memberStep, hl]
    | some key =>
      by_cases hk : key = k
      · subst hk
        simp [memberStep, hl, hdb, List.count_cons]
      · cases hlk : lookupAssoc mc key
        · cases hdbk : mdb key <;>
            simp [memberStep, hlk, hdbk, List.count_cons, lookupAssoc_cons,
              hk, hl]
        · simp [memberStep, hlk, hl, hk]

theorem enrichLoansLoop_results (mdb : String → Option LoanMember)
    (idb : String → Option LoanItem) (im ii : Bool) (loans : List Loan)
    (mc : List (String × LoanMember)) (ic : List (String × LoanItem))
    (hmc : ∀ k v, lookupAssoc mc k = some v → mdb k = some v)
    (hic : ∀ k v, lookupAssoc ic k = some v → idb k = some v) :
    (enrichLoansLoop mdb idb im ii loans mc ic).1
      = loans.map (fun loan =>
          ⟨loan, if im then loan.member_id.bind mdb else none,
                 if ii then loan.item_code.bind idb else none⟩) := by
  induction loans generalizing mc ic with
  | nil => simp [enrichLoansLoop]
  | cons loan rest ih =>
    simp only [enrichLoansLoop, List.map_cons]
    rw [memberStep_result mdb im loan.member_id mc hmc,
      itemStep_result idb ii loan.item_code ic hic,
      ih _ _ (memberStep_cache_consistent mdb im loan.member_id mc hmc)
        (itemStep_cache_consistent idb ii loan.item_code ic hic)]

theorem enrichLoansLoop_count_found (mdb : String → Option LoanMember)
    (idb : String → Option LoanItem) (im ii : Bool) (loans : List Loan)
    (mc : List (String × LoanMember)) (ic : List (String × LoanItem))
    (k : String) (r : LoanMember) (hdb : mdb k = some r) :
    (enrichLoansLoop mdb idb im ii loans mc ic).2.2.2.count
        (QueryLog.memberLookup k)
      = if im ∧ lookupAssoc mc k = none ∧ some k ∈ loans.map (·.member_id)
        then 1 else 0 := by
  induction loans generalizing mc ic with
  | nil => simp [enrichLoansLoop]
  | cons loan rest ih =>
    simp only [enrichLoansLoop, List.count_append]
    rw [itemStep_no_member]
    have hm := memberStep_count_found mdb im loan.member_id mc k r hdb
    rw [hm.1, ih _ _]
    rw [hm.2]
    cases im
    · simp
    · by_cases hl : lookupAssoc mc k = none
      · by_cases hmid : loan.member_id = some k
        · simp [hl, hmid]
        · have hmid' : ¬some k = loan.member_id := fun h => hmid h.symm
          simp [hl, hmid, hmid']
      · simp [hl]

theorem enrichLoansLoop_count_notfound (mdb : String → Option LoanMember)
    (idb : String → Option LoanItem) (im ii : Bool) (loans : List Loan)
    (mc : List (String × LoanMember)) (ic : List (String × LoanItem))
    (k : String) (hdb : mdb k = none) (hl : lookupAssoc mc k = none) :
    (enrichLoansLoop mdb idb im ii loans mc ic).2.2.2.count
        (QueryLog.memberLookup k)
      = if im then loans.countP (fun l => l.member_id = some k) else 0 := by
  induction loans generalizing mc ic with
  | nil => simp [enrichLoansLoop]
  | cons loan rest ih =>
    simp only [enrichLoansLoop, List.count_append]
    rw [itemStep_no_member]
    have hm := memberStep_count_notfound mdb im loan.member_id mc k hdb hl
    rw [hm.1, ih _ _ hm.2]
    cases im
    · simp
    · by_cases hmid : loan.member_id = some k <;>
        simp [hmid, List.countP_cons]
      omega

/-! Claim theorems. -/

/-- C2: the count query and the data query receive exactly the same bound
values in clause order, each in its native type; the data query additionally
binds `LIMIT` and `OFFSET` last. -/
theorem bind_order_lockstep (q : QueryAs) (qs : QueryScalar)
    (filters : List FilterClause) (limit offset : Int) :
    (bind_filters_to_query q filters).binds
        = q.binds ++ filters.map (·.value) ∧
    (bind_filters_to_scalar qs filters).binds
        = qs.binds ++ filters.map (·.value) ∧
    list_loans_count_binds filters = filters.map (·.value) ∧
    list_loans_data_binds filters limit offset
        = filters.map (·.value) ++ [.Integer limit, .Integer offset] := by
  refine ⟨bind_filters_to_query_binds filters q,
          bind_filters_to_scalar_binds filters qs, ?_, ?_⟩
  · simp [list_loans_count_binds, bind_filters_to_scalar_binds]
  · simp [list_loans_data_binds, QueryAs.bind, bind_filters_to_query_binds]

/-- C5: the resolved pagination always satisfies `page_number ≥ 1` and
`page_size ∈ [1,100]`; absent values default to 1 and 20, zero is raised to
1, a size above 100 is lowered to 100, and in-range values pass through. -/
theorem pagination_clamped (p : Pagination) :
    1 ≤ p.resolved.1 ∧ 1 ≤ p.resolved.2 ∧ p.resolved.2 ≤ 100 ∧
    (p.page_number = none → p.resolved.1 = 1) ∧
    (p.page_size = none → p.resolved.2 = 20) ∧
    (p.page_number = some 0 → p.resolved.1 = 1) ∧
    (p.page_size = some 0 → p.resolved.2 = 1) ∧
    (∀ n, p.page_size = some n → 100 < n → p.resolved.2 = 100) ∧
    (∀ n, p.page_number = some n → 1 ≤ n → p.resolved.1 = n) ∧
    (∀ n, p.page_size = some n → 1 ≤ n → n ≤ 100 → p.resolved.2 = n) := by
  obtain ⟨pn, ps⟩ := p
  cases pn <;> cases ps <;>
    simp_all [Pagination.resolved, DEFAULT_PAGE, DEFAULT_PER_PAGE,
      MAX_PER_PAGE] <;>
    omega

/-- C5 witness. -/
theorem pagination_clamped_witness :
    (Pagination.resolved ⟨some 0, some 0⟩).1 = 1 ∧
    (Pagination.resolved ⟨some 0, some 0⟩).2 = 1 ∧
    (Pagination.resolved ⟨some 7, some 200⟩).2 = 100 :=
  ⟨(pagination_clamped ⟨some 0, some 0⟩).2.2.2.2.2.1 rfl,
   (pagination_clamped ⟨some 0, some 0⟩).2.2.2.2.2.2.1 rfl,
   (pagination_clamped ⟨some 7, some 200⟩).2.2.2.2.2.2.2.1 200 rfl
     (by decide)⟩

/-- C10: the row offset is `(page - 1) * per_page` in wrapping 32-bit
arithmetic: it equals the product modulo `2^32`, agrees with the exact
product precisely when the product is below `2^32`, and is strictly smaller
than the product once it wraps. -/
theorem limit_offset_wraps (p : Pagination) :
    p.limit_offset.2.1
        = (((p.resolved.1 - 1) * p.resolved.2 % 2 ^ 32 : Nat) : Int) ∧
    ((p.resolved.1 - 1) * p.resolved.2 < 2 ^ 32 ↔
      p.limit_offset.2.1 = (((p.resolved.1 - 1) * p.resolved.2 : Nat) : Int)) ∧
    (2 ^ 32 ≤ (p.resolved.1 - 1) * p.resolved.2 →
      p.limit_offset.2.1 < (((p.resolved.1 - 1) * p.resolved.2 : Nat) : Int)) := by
  refine ⟨rfl, ?_, ?_⟩ <;>
    · simp only [Pagination.limit_offset]
      omega

/-- C10 witness: with `page[number]=43000001` and `page[size]=100` the true
offset `4300000000` exceeds `2^32` and the returned offset has wrapped to
`5032704`. -/
theorem limit_offset_wraps_witness :
    (Pagination.limit_offset ⟨some 43000001, some 100⟩).2.1 = 5032704 ∧
    2 ^ 32 ≤ ((Pagination.resolved ⟨some 43000001, some 100⟩).1 - 1)
        * (Pagination.resolved ⟨some 43000001, some 100⟩).2 ∧
    (Pagination.limit_offset ⟨some 43000001, some 100⟩).2.1
      < ((((Pagination.resolved ⟨some 43000001, some 100⟩).1 - 1)
          * (Pagination.resolved ⟨some 43000001, some 100⟩).2 : Nat) : Int) :=
  ⟨by decide, by decide,
   (limit_offset_wraps ⟨some 43000001, some 100⟩).2.2 (by decide)⟩

/-- C9: deserialization never stores an empty value list in the filters
map, so the `values.first().expect("checked non-empty")` inside
`filter_clauses` is unreachable: on every deserialized parameter set
`filter_clauses` returns a value (`isSome`) instead of panicking. -/
theorem deserialized_filters_nonempty :
    (∀ extras, ∀ e ∈ buildFilters extras, e.2 ≠ []) ∧
    (∀ extras allowed,
      (filter_clauses (buildFilters extras) allowed).isSome = true) :=
  ⟨buildFilters_values_ne_nil,
   fun extras allowed =>
     filter_clauses_isSome _ allowed (buildFilters_values_ne_nil extras)⟩

/-- C9 witness. -/
theorem deserialized_filters_nonempty_witness :
    ((("is_return", ["1"]) : String × List String).2 ≠ []) ∧
    (filter_clauses (buildFilters [("filter[is_return]", "1")])
        LOAN_FILTERS).isSome = true :=
  ⟨deserialized_filters_nonempty.1 [("filter[is_return]", "1")]
      ("is_return", ["1"]) (by decide),
   deserialized_filters_nonempty.2 [("filter[is_return]", "1")] LOAN_FILTERS⟩

/-- C6 counterexample: with the loans allow-list and the filters map
holding first the entry `is_return = "abc"` (allowed name, malformed
boolean) and then `zzz = "x"` (name outside the allow-list),
`filter_clauses` returns the boolean-coercion error, not the
"unsupported filter" error naming `zzz` that the claim promises. -/
theorem unsupported_filter_counterexample :
    filter_clauses [("is_return", ["abc"]), ("zzz", ["x"])] LOAN_FILTERS
      = some (.error (.BadRequest "filter `is_return` must be boolean")) ∧
    filter_clauses [("is_return", ["abc"]), ("zzz", ["x"])] LOAN_FILTERS
      ≠ some (.error (.BadRequest "filter `zzz` is not supported")) := by
  decide

/-- C6 (amended): when the filters map holds a name outside the allow-list
`filter_clauses` returns no clause list — the specific "unsupported filter"
error naming the key is produced when the offending entry is reached before
any other failing entry (in particular when it comes first) — and an `Ok`
clause list only ever contains clauses compiled from allow-list entries. -/
theorem unsupported_filter_rejected :
    (∀ (name : String) (values : List String) rest allowed,
      (∀ f ∈ allowed, f.name ≠ name) →
      filter_clauses ((name, values) :: rest) allowed
        = some (.error (.BadRequest
            ("filter `" ++ name ++ "` is not supported")))) ∧
    (∀ filters allowed, (∃ p ∈ filters, ∀ f ∈ allowed, f.name ≠ p.1) →
      ∀ clauses, filter_clauses filters allowed ≠ some (.ok clauses)) ∧
    (∀ filters allowed clauses,
      filter_clauses filters allowed = some (.ok clauses) →
      ∀ c ∈ clauses, ∃ f ∈ allowed, ∃ v,
        f.to_clause v = .ok (c.statement, c.value)) :=
  ⟨filter_clauses_head_unsupported,
   filter_clauses_ne_ok_of_unsupported,
   filter_clauses_ok_mem⟩

/-- C6 witness. -/
theorem unsupported_filter_rejected_witness :
    filter_clauses [("zzz", ["x"])] LOAN_FILTERS
      = some (.error (.BadRequest "filter `zzz` is not supported")) :=
  unsupported_filter_rejected.1 "zzz" ["x"] [] LOAN_FILTERS (by decide)

/-- C1: the SQL statement text of a compiled clause depends only on the
allow-list entry — `"<column> = ?"` for `Equals`, `"<column> LIKE ?"` for
`Like` — and is identical for any two user values (`LIKE` wildcard wrapping
goes into the bind value); the `where_clause` string is assembled only from
such fragments, `" AND "` separators and the `WHERE` keyword. -/
theorem sql_text_from_allowlist_only :
    (∀ (f : FilterField) (v s : String) (val : FilterValue),
      f.to_clause v = .ok (s, val) →
      s = f.column
        ++ match f.operator with | .Equals => " = ?" | .Like => " LIKE ?") ∧
    (∀ (f : FilterField) (v₁ v₂ s₁ s₂ : String) (val₁ val₂ : FilterValue),
      f.to_clause v₁ = .ok (s₁, val₁) → f.to_clause v₂ = .ok (s₂, val₂) →
      s₁ = s₂) ∧
    (∀ (f : FilterField) (v : String), f.operator = .Like →
      f.to_clause v = .ok (f.column ++ " LIKE ?", .Text ("%" ++ v ++ "%"))) ∧
    (∀ filters allowed clauses,
      filter_clauses filters allowed = some (.ok clauses) →
      (∀ c ∈ clauses, ∃ f ∈ allowed,
        c.statement = f.column ++ " = ?" ∨
        c.statement = f.column ++ " LIKE ?") ∧
      where_clause clauses
        = if clauses.isEmpty then ""
          else "WHERE "
            ++ String.intercalate " AND " (clauses.map (·.statement))) := by
  refine ⟨to_clause_statement, ?_, ?_, ?_⟩
  · intro f v₁ v₂ s₁ s₂ val₁ val₂ h₁ h₂
    rw [to_clause_statement f v₁ s₁ val₁ h₁, to_clause_statement f v₂ s₂ val₂ h₂]
  · intro f v hop
    simp [FilterField.to_clause, hop]
  · intro filters allowed clauses h
    refine ⟨?_, rfl⟩
    intro c hc
    obtain ⟨f, hf, v, hv⟩ := filter_clauses_ok_mem filters allowed clauses h c hc
    refine ⟨f, hf, ?_⟩
    have := to_clause_statement f v c.statement c.value hv
    cases hop : f.operator <;> rw [hop] at this <;> simp [this]

/-- C1 witness. -/
theorem sql_text_from_allowlist_only_witness :
    FilterField.to_clause ⟨"title", "b.title", .Like, .Text⟩ "abc"
      = .ok ("b.title" ++ " LIKE ?", .Text ("%" ++ "abc" ++ "%")) :=
  sql_text_from_allowlist_only.2.2.1 ⟨"title", "b.title", .Like, .Text⟩
    "abc" rfl

/-- C4 counterexample: a `Like` field declared with `Integer` value type
does not coerce at all — `to_clause` on the non-integer value `"abc"`
succeeds with the text bind `"%abc%"` instead of the integer error the
claim requires for every operator. -/
theorem like_skips_coercion_counterexample :
    FilterField.to_clause ⟨"n", "t.n", .Like, .Integer⟩ "abc"
      = .ok ("t.n LIKE ?", .Text "%abc%") ∧
    FilterField.to_clause ⟨"n", "t.n", .Like, .Integer⟩ "abc"
      ≠ .error (.BadRequest "filter `n` must be an integer") := by
  decide

/-- C4 (amended): the declared value type drives coercion only for the
`Equals` operator — `Text` passes through, `Integer` parses as `i64` with
the "must be an integer" `BadRequest` on failure, `Boolean` accepts exactly
`"true"`/`"1"`/`"false"`/`"0"` with the "must be boolean" `BadRequest`
otherwise — while a `Like` field ignores the declared value type and always
binds `%value%` as text. -/
theorem filter_value_coercion :
    (∀ (f : FilterField) (v : String),
      f.operator = .Equals → f.value_type = .Text →
      f.to_clause v = .ok (f.column ++ " = ?", .Text v)) ∧
    (∀ (f : FilterField) (v : String) (n : Int),
      f.operator = .Equals → f.value_type = .Integer → parseI64 v = some n →
      f.to_clause v = .ok (f.column ++ " = ?", .Integer n)) ∧
    (∀ (f : FilterField) (v : String),
      f.operator = .Equals → f.value_type = .Integer → parseI64 v = none →
      f.to_clause v = .error (.BadRequest
        ("filter `" ++ f.name ++ "` must be an integer"))) ∧
    (∀ (f : FilterField) (v : String),
      f.operator = .Equals → f.value_type = .Boolean →
      ((v = "true" ∨ v = "1") →
        f.to_clause v = .ok (f.column ++ " = ?", .Boolean true)) ∧
      ((v = "false" ∨ v = "0") →
        f.to_clause v = .ok (f.column ++ " = ?", .Boolean false)) ∧
      (v ≠ "true" → v ≠ "1" → v ≠ "false" → v ≠ "0" →
        f.to_clause v = .error (.BadRequest
          ("filter `" ++ f.name ++ "` must be boolean")))) ∧
    (∀ (f : FilterField) (v : String), f.operator = .Like →
      f.to_clause v = .ok (f.column ++ " LIKE ?",
        .Text ("%" ++ v ++ "%"))) := by
  refine ⟨?_, ?_, ?_, ?_, ?_⟩
  · intro f v hop hty
    simp [FilterField.to_clause, FilterField.parse_value, hop, hty]
  · intro f v n hop hty hp
    simp [FilterField.to_clause, FilterField.parse_value, hop, hty, hp]
  · intro f v hop hty hp
    simp [FilterField.to_clause, FilterField.parse_value, hop, hty, hp]
  · intro f v hop hty
    refine ⟨?_, ?_, ?_⟩
    · rintro (rfl | rfl) <;>
        simp [FilterField.to_clause, FilterField.parse_value, hop, hty]
    · rintro (rfl | rfl) <;>
        simp [FilterField.to_clause, FilterField.parse_value, hop, hty]
    · intro h1 h2 h3 h4
      simp [FilterField.to_clause, FilterField.parse_value, hop, hty,
        h1, h2, h3, h4]
  · intro f v hop
    simp [FilterField.to_clause, hop]

/-- C4 witness. -/
theorem filter_value_coercion_witness :
    FilterField.to_clause ⟨"id", "t.id", .Equals, .Integer⟩ "12"
      = .ok ("t.id" ++ " = ?", .Integer 12) ∧
    FilterField.to_clause ⟨"f", "t.f", .Equals, .Boolean⟩ "maybe"
      = .error (.BadRequest ("filter `" ++ "f" ++ "` must be boolean")) :=
  ⟨filter_value_coercion.2.1 ⟨"id", "t.id", .Equals, .Integer⟩ "12" 12
      rfl rfl (by decide),
   (filter_value_coercion.2.2.2.1 ⟨"f", "t.f", .Equals, .Boolean⟩ "maybe"
      rfl rfl).2.2 (by decide) (by decide) (by decide) (by decide)⟩

/-- The `ORDER BY` fragment a sort order compiles to when its field is
found in the allow-list. -/
def sortFrag (allowed : List SortField) (o : SortOrder) : String :=
  ((allowed.find? (fun d => d.name = o.field)).map
    (fun d => d.column ++ " " ++ (if o.ascending then "ASC" else "DESC"))).getD ""

theorem sortFragments_ok (sorts : List SortOrder) (allowed : List SortField)
    (h : ∀ o ∈ sorts,
      (allowed.find? (fun d => d.name = o.field)).isSome = true) :
    sortFragments sorts allowed = .ok (sorts.map (sortFrag allowed)) := by
  induction sorts with
  | nil => simp [sortFragments]
  | cons o rest ih =>
    simp only [sortFragments]
    split
    · rename_i d hfind
      rw [ih (fun p hp => h p (List.mem_cons_of_mem _ hp))]
      simp [sortFrag, hfind]
    · rename_i hfind
      have := h o (List.mem_cons_self _ _)
      rw [hfind] at this
      simp at this

theorem sortFragments_err (pre : List SortOrder) (o : SortOrder)
    (post : List SortOrder) (allowed : List SortField)
    (hpre : ∀ p ∈ pre,
      (allowed.find? (fun d => d.name = p.field)).isSome = true)
    (hnone : allowed.find? (fun d => d.name = o.field) = none) :
    sortFragments (pre ++ o :: post) allowed
      = .error (.BadRequest
          ("sorting by `" ++ o.field ++ "` is not supported")) := by
  induction pre with
  | nil =>
    simp only [List.nil_append, sortFragments]
    split
    · rename_i d hfind
      rw [hnone] at hfind
      simp at hfind
    · rfl
  | cons p pre ih =>
    simp only [List.cons_append, sortFragments]
    split
    · rename_i d hfind
      simp only [List.append_eq]
      rw [ih (fun q hq => hpre q (List.mem_cons_of_mem _ hq))]
    · rename_i hfind
      have := hpre p (List.mem_cons_self _ _)
      rw [hfind] at this
      simp at this

/-- C7: with no parsed sort segments `sort_clause` returns the default
verbatim; when every segment's field is in the allow-list it returns the
`"<column> ASC"`/`"<column> DESC"` fragments joined by `", "` in input
order; otherwise it fails naming the first field missing from the
allow-list; a leading `-` parses as descending, `+` or no sign as
ascending, and empty segments are dropped. -/
theorem sort_clause_spec :
    (∀ allowed default, sort_clause [] allowed default = .ok default) ∧
    (∀ sorts allowed default, sorts ≠ [] →
      (∀ o ∈ sorts,
        (allowed.find? (fun d => d.name = o.field)).isSome = true) →
      sort_clause sorts allowed default
        = .ok (String.intercalate ", " (sorts.map (sortFrag allowed)))) ∧
    (∀ pre (o : SortOrder) post allowed default,
      (∀ p ∈ pre,
        (allowed.find? (fun d => d.name = p.field)).isSome = true) →
      allowed.find? (fun d => d.name = o.field) = none →
      sort_clause (pre ++ o :: post) allowed default
        = .error (.BadRequest
            ("sorting by `" ++ o.field ++ "` is not supported"))) ∧
    parse_sort_string "-due_date,loan_id"
      = [⟨"due_date", false⟩, ⟨"loan_id", true⟩] ∧
    parse_sort_string " -a ,, +b , c "
      = [⟨"a", false⟩, ⟨"b", true⟩, ⟨"c", true⟩] := by
  refine ⟨?_, ?_, ?_, by decide, by decide⟩
  · intro allowed default
    simp [sort_clause]
  · intro sorts allowed default hne h
    unfold sort_clause
    rw [if_neg (by simp [List.isEmpty_iff, hne]), sortFragments_ok sorts allowed h]
  · intro pre o post allowed default hpre hnone
    unfold sort_clause
    rw [if_neg (by cases pre <;> simp), sortFragments_err pre o post allowed hpre hnone]

/-- C7 witness. -/
theorem sort_clause_spec_witness :
    sort_clause [⟨"due_date", false⟩, ⟨"loan_id", true⟩] LOAN_SORTS
        "loan.loan_date DESC"
      = .ok (String.intercalate ", "
          (([⟨"due_date", false⟩, ⟨"loan_id", true⟩] : List SortOrder).map
            (sortFrag LOAN_SORTS))) ∧
    sort_clause [⟨"xyz", true⟩] LOAN_SORTS "loan.loan_date DESC"
      = .error (.BadRequest
          ("sorting by `" ++ "xyz" ++ "` is not supported")) :=
  ⟨sort_clause_spec.2.1 [⟨"due_date", false⟩, ⟨"loan_id", true⟩] LOAN_SORTS
      "loan.loan_date DESC" (by decide) (by decide),
   sort_clause_spec.2.2.1 [] ⟨"xyz", true⟩ [] LOAN_SORTS
      "loan.loan_date DESC" (by decide) (by decide)⟩

/-- C3 counterexample: with `include=member`, a member database holding no
row for `"m1"`, and two loans sharing the foreign key `"m1"`, the enrichment
loop issues the member lookup twice, not once: a miss whose lookup finds
nothing does not populate the cache. -/
theorem inclusion_cache_counterexample :
    ((enrichLoansLoop (fun _ => none) (fun _ => none) true false
        [⟨1, none, some "m1", 0, 0, none, none, 0⟩,
         ⟨2, none, some "m1", 0, 0, none, none, 0⟩] [] []).2.2.2.count
      (QueryLog.memberLookup "m1") ≠ 1) ∧
    ((enrichLoansLoop (fun _ => none) (fun _ => none) true false
        [⟨1, none, some "m1", 0, 0, none, none, 0⟩,
         ⟨2, none, some "m1", 0, 0, none, none, 0⟩] [] []).2.2.2.count
      (QueryLog.memberLookup "m1") = 2) := by
  decide

/-- C3 (amended): in a batch enriched from empty caches, every row receives
the lookup result for its own key (rows sharing a key receive the same
value, `none` when the lookup finds nothing, absence not an error); when
the lookup finds a record, it is issued exactly once for that key across
the batch (the miss populates the cache and later rows hit it); when the
lookup finds nothing, the cache is not populated and the lookup is issued
once per row carrying that key. -/
theorem inclusion_cache_spec (mdb : String → Option LoanMember)
    (idb : String → Option LoanItem) (im ii : Bool) (loans : List Loan) :
    ((enrichLoansLoop mdb idb im ii loans [] []).1
      = loans.map (fun loan =>
          ⟨loan, if im then loan.member_id.bind mdb else none,
                 if ii then loan.item_code.bind idb else none⟩)) ∧
    (∀ k r, mdb k = some r →
      (enrichLoansLoop mdb idb im ii loans [] []).2.2.2.count
          (QueryLog.memberLookup k)
        = if im ∧ some k ∈ loans.map (·.member_id) then 1 else 0) ∧
    (∀ k, mdb k = none →
      (enrichLoansLoop mdb idb im ii loans [] []).2.2.2.count
          (QueryLog.memberLookup k)
        = if im then loans.countP (fun l => l.member_id = some k)
          else 0) := by
  refine ⟨?_, ?_, ?_⟩
  · exact enrichLoansLoop_results mdb idb im ii loans [] []
      (by simp [lookupAssoc]) (by simp [lookupAssoc])
  · intro k r hdb
    rw [enrichLoansLoop_count_found mdb idb im ii loans [] [] k r hdb]
    simp [lookupAssoc]
  · intro k hdb
    exact enrichLoansLoop_count_notfound mdb idb im ii loans [] [] k hdb
      (by simp [lookupAssoc])

/-- C3 witness: same two-loan batch, but the member database holds a row
for `"m1"`; the lookup is issued exactly once. -/
theorem inclusion_cache_spec_witness :
    (enrichLoansLoop (fun _ => some ⟨"m1", "Alice"⟩) (fun _ => none) true
        false
        [⟨1, none, some "m1", 0, 0, none, none, 0⟩,
         ⟨2, none, some "m1", 0, 0, none, none, 0⟩] [] []).2.2.2.count
      (QueryLog.memberLookup "m1") = 1 := by
  have h := (inclusion_cache_spec (fun _ => some ⟨"m1", "Alice"⟩)
    (fun _ => none) true false
    [⟨1, none, some "m1", 0, 0, none, none, 0⟩,
     ⟨2, none, some "m1", 0, 0, none, none, 0⟩]).2.1 "m1" ⟨"m1", "Alice"⟩ rfl
  rw [h, if_pos (by decide)]

/-- C8: include parsing is idempotent: an absent string yields the empty
set, `"Foo, bar,, BAR"` yields exactly `{"foo","bar"}`, and the resulting
set is invariant under segment reordering, duplicate segments, empty or
whitespace-only segments, and per-segment casing/whitespace variants. -/
theorem includes_idempotent :
    parse_include none = ∅ ∧
    parse_include (some "Foo, bar,, BAR") = {"foo", "bar"} ∧
    (∀ l₁ l₂ : List (List Char), l₁.Perm l₂ →
      parseIncludeParts l₁ = parseIncludeParts l₂) ∧
    (∀ p parts, parseIncludeParts (p :: p :: parts)
        = parseIncludeParts (p :: parts)) ∧
    (∀ p parts, (trimChars p).isEmpty = true →
      parseIncludeParts (p :: parts) = parseIncludeParts parts) ∧
    (∀ p q parts,
      (trimChars p).map Char.toLower = (trimChars q).map Char.toLower →
      parseIncludeParts (p :: parts) = parseIncludeParts (q :: parts)) := by
  refine ⟨rfl, by decide, ?_, ?_, ?_, ?_⟩
  · intro l₁ l₂ h
    exact List.toFinset_eq_of_perm _ _ (h.filterMap canonSeg)
  · intro p parts
    simp only [parseIncludeParts, List.filterMap_cons]
    cases h : canonSeg p <;> simp
  · intro p parts h
    simp [parseIncludeParts, List.filterMap_cons, canonSeg, h]
  · intro p q parts h
    have hcanon : canonSeg p = canonSeg q := by
      have hnil : (trimChars p) = [] ↔ (trimChars q) = [] := by
        constructor <;> intro hx <;>
          [rw [hx] at h; rw [hx] at h] <;>
          [exact (List.map_eq_nil_iff.mp h.symm); exact (List.map_eq_nil_iff.mp h)]
      simp only [canonSeg, List.isEmpty_iff]
      by_cases hp : trimChars p = []
      · rw [if_pos hp, if_pos (hnil.mp hp)]
      · rw [if_neg hp, if_neg (fun hq => hp (hnil.mpr hq))]
        exact congrArg (fun l => some (String.mk l)) h
    simp only [parseIncludeParts, List.filterMap_cons, hcanon]

/-- C8 witness. -/
theorem includes_idempotent_witness :
    parseIncludeParts ["Foo".data, " bar".data]
      = parseIncludeParts [" bar".data, "Foo".data] :=
  includes_idempotent.2.2.1 _ _ (by decide)

end SlimsApi
